import Mathlib

/-!
Traffic statistics readers (`core/jni/android_net_TrafficStats.cpp`)

A shallow embedding of the native traffic-statistics readers.  The functions read
decimal counters out of pseudo-files and add them up; the embedding passes the state
of the file system explicitly as a `World`.

* C strings and file contents are `List Char`, one `Char` per byte.
* `jlong` values are `Int`.  The addition `total + num` of the accumulator is exact as
  long as the sum fits in a `jlong`; beyond that C++ leaves the signed addition
  undefined.  The functions `readTotal` and `readRmNetStats` take the wraparound reading
  of it (`wrapJlong`); `readTotalStrict` and `readRmNetStatsStrict` are the same loops
  with no result (`none`) once an addition overflows.
* The C library functions used by the source (`atoll`, `strncmp`, `strlcpy`,
  `strlcat`, the `%d` conversion of `sprintf`) are given by their usual semantics.
* `LOGE` only writes to the log and has no influence on any returned value; it is
  left out.
* The source selects its bodies with `#ifdef HAVE_ANDROID_OS`; both branches are kept
  and the build flag is the constant `HAVE_ANDROID_OS` (the device build).
-/

set_option maxRecDepth 8000

namespace TrafficStats

/-! ## The environment -/

/-- What `open`/`read` do on one path. -/
inductive FileState where
  /-- The call of `open` fails with `ENOENT`. -/
  | noEntry : FileState
  /-- The call of `open` fails with another `errno`. -/
  | openError : FileState
  /-- The call of `open` succeeds and `read` fails. -/
  | readError : FileState
  /-- The call of `open` succeeds and the file holds these bytes. -/
  | data (bytes : List Char) : FileState
  deriving DecidableEq

/-- The state of the pseudo file system seen by one call. -/
structure World where
  /-- The outcome of opening and reading each path. -/
  files : List Char → FileState
  /-- The names `readdir` yields for `/sys/class/net/`, in enumeration order;
  `none` when `opendir` fails. -/
  netDir : Option (List (List Char))

/-- The build flag of the `#ifdef HAVE_ANDROID_OS` conditionals: the device build. -/
def HAVE_ANDROID_OS : Bool := true

/-- The constant `PATH_MAX` of `<limits.h>` on Linux. -/
def PATH_MAX : Nat := 4096

/-! ## 64-bit arithmetic and the C library -/

/-- Reduction of an integer to the signed 64-bit range (two's complement). -/
def wrapJlong (x : Int) : Int := (x + 2 ^ 63) % 2 ^ 64 - 2 ^ 63

/-- The C library's `isspace` in the C locale. -/
def isspace (c : Char) : Bool :=
  c == ' ' || c == '\t' || c == '\n' || c == Char.ofNat 11 || c == Char.ofNat 12 || c == '\r'

/-- The C library's `isdigit`. -/
def isdigit (c : Char) : Bool := decide ('0' ≤ c ∧ c ≤ '9')

/-- Value of a decimal digit character. -/
def digitVal (c : Char) : Nat := c.toNat - 48

/-- The digit loop of `strtoll` in base 10: consumes the leading digits. -/
def parseDigits : Nat → List Char → Nat
  | acc, [] => acc
  | acc, c :: cs => if isdigit c then parseDigits (acc * 10 + digitVal c) cs else acc

/-- The C library's `atoll(s)`, which is `strtoll(s, NULL, 10)`: skips white space, takes an optional
sign, converts the leading digits and clamps to the `long long` range. -/
def atoll (s : List Char) : Int :=
  let t := s.dropWhile isspace
  if t.head? = some '-' then max (-(2 ^ 63)) (-(parseDigits 0 t.tail : Int))
  else if t.head? = some '+' then min (2 ^ 63 - 1) (parseDigits 0 t.tail : Int)
  else min (2 ^ 63 - 1) (parseDigits 0 t : Int)

/-- The test `strncmp(s, p, n) == 0`: the first `n` characters agree (or both strings end
before that at the same place). -/
def strncmpEq (s p : List Char) (n : Nat) : Bool := s.take n == p.take n

/-- The call `strlcpy(dst, src, size)`: the string left in `dst`. -/
def strlcpy (src : List Char) (size : Nat) : List Char := src.take (size - 1)

/-- The call `strlcat(dst, src, size)`: the string left in `dst`. -/
def strlcat (dst src : List Char) (size : Nat) : List Char :=
  dst ++ src.take (size - dst.length - 1)

/-- The `%d` conversion of `sprintf`. -/
def formatD (i : Int) : List Char :=
  if i < 0 then '-' :: Nat.toDigits 10 i.natAbs else Nat.toDigits 10 i.toNat

/-! ## The source functions -/

/-- Function `readNumber`: an ASCII decimal number read from the file, `-1` on error. -/
def readNumber (w : World) (filename : List Char) : Int :=
  if HAVE_ANDROID_OS then
    match w.files filename with
    | FileState.noEntry => -1
    | FileState.openError => -1
    | FileState.readError => -1
    | FileState.data bytes => atoll (bytes.take (80 - 1))
  else -1

/-- The directory both aggregators list. -/
def netBase : List Char := "/sys/class/net/".toList

/-- The file name built in the loop bodies: `strlcpy(filename + len, d_name, ...)`
followed by `strlcat(filename, suffix, ...)`. -/
def counterFile (d_name suffix : List Char) : List Char :=
  strlcat (netBase ++ strlcpy d_name (PATH_MAX - netBase.length)) suffix PATH_MAX

/-- The update `if (num >= 0) total = total < 0 ? num : total + num;`, the addition
wrapping around when it leaves the `jlong` range. -/
def accumulate (total num : Int) : Int :=
  if num ≥ 0 then (if total < 0 then num else wrapJlong (total + num)) else total

/-- The entry test of `readTotal`: skips `.`, `..` and localhost interfaces. -/
def totalFilter (d_name : List Char) : Bool :=
  d_name.head? != some '.' && !(strncmpEq d_name "lo".toList 2)

/-- The macro `RMNET_PREFIX`. -/
def RMNET_PREFIX : List Char := "rmnet".toList

/-- The entry test of `readRmNetStats`. -/
def rmnetFilter (d_name : List Char) : Bool :=
  d_name.head? != some '.' && !(strncmpEq d_name "lo".toList 2) &&
    strncmpEq d_name RMNET_PREFIX RMNET_PREFIX.length

/-- One iteration of the `readdir` loop of `readTotal`. -/
def readTotalStep (w : World) (suffix : List Char) (total : Int) (d_name : List Char) : Int :=
  if totalFilter d_name then accumulate total (readNumber w (counterFile d_name suffix))
  else total

/-- Function `readTotal`: the sum of the numbers from the path under `/sys/class/net/*`,
`-1` if no such file exists. -/
def readTotal (w : World) (suffix : List Char) : Int :=
  if HAVE_ANDROID_OS then
    match w.netDir with
    | none => -1
    | some entries => entries.foldl (readTotalStep w suffix) (-1)
  else -1

/-- One iteration of the `readdir` loop of `readRmNetStats`. -/
def readRmNetStep (w : World) (suffix : List Char) (total : Int) (d_name : List Char) : Int :=
  if rmnetFilter d_name then accumulate total (readNumber w (counterFile d_name suffix))
  else total

/-- Function `readRmNetStats`: the sum of the numbers from all the rmnet interfaces,
`-1` if no such file exists. -/
def readRmNetStats (w : World) (suffix : List Char) : Int :=
  if HAVE_ANDROID_OS then
    match w.netDir with
    | none => -1
    | some entries => entries.foldl (readRmNetStep w suffix) (-1)
  else -1

/-- The path every mobile query falls back to. -/
def pppFallback : List Char := "/sys/class/net/ppp0/statistics/tx_packets".toList

def getMobileTxPackets (w : World) : Int :=
  let stats := readRmNetStats w "/statistics/tx_packets".toList
  if stats ≥ 0 then stats else readNumber w pppFallback

def getMobileRxPackets (w : World) : Int :=
  let stats := readRmNetStats w "/statistics/rx_packets".toList
  if stats ≥ 0 then stats else readNumber w pppFallback

def getMobileTxBytes (w : World) : Int :=
  let stats := readRmNetStats w "/statistics/tx_bytes".toList
  if stats ≥ 0 then stats else readNumber w pppFallback

def getMobileRxBytes (w : World) : Int :=
  let stats := readRmNetStats w "/statistics/rx_bytes".toList
  if stats ≥ 0 then stats else readNumber w pppFallback

def getTotalTxPackets (w : World) : Int := readTotal w "/statistics/tx_packets".toList

def getTotalRxPackets (w : World) : Int := readTotal w "/statistics/rx_packets".toList

def getTotalTxBytes (w : World) : Int := readTotal w "/statistics/tx_bytes".toList

def getTotalRxBytes (w : World) : Int := readTotal w "/statistics/rx_bytes".toList

/-- The file name `sprintf` writes in `getUidRxBytes`. -/
def uidRcvFile (uid : Int) : List Char :=
  "/proc/uid_stat/".toList ++ formatD uid ++ "/tcp_rcv".toList

/-- The file name `sprintf` writes in `getUidTxBytes`. -/
def uidSndFile (uid : Int) : List Char :=
  "/proc/uid_stat/".toList ++ formatD uid ++ "/tcp_snd".toList

def getUidRxBytes (w : World) (uid : Int) : Int := readNumber w (uidRcvFile uid)

def getUidTxBytes (w : World) (uid : Int) : Int := readNumber w (uidSndFile uid)

/-! ## Notions used to state the properties -/

/-- The file is readable and holds the decimal text of `n`, followed by nothing or by
something that does not start with a digit (a newline, for instance). -/
def HoldsNumber (st : FileState) (n : Nat) : Prop :=
  ∃ rest, st = FileState.data (Nat.toDigits 10 n ++ rest) ∧
    ∀ c, rest.head? = some c → isdigit c = false

/-- The file can be opened and read. -/
def FileState.readable : FileState → Bool
  | FileState.data _ => true
  | _ => false

/-- The name filter of the total queries in words: the name starts neither with `.`
nor with `lo`. -/
def qualifying (name : List Char) : Bool :=
  !(".".toList.isPrefixOf name) && !("lo".toList.isPrefixOf name)

/-- The name starts with `lo`. -/
def isLoopback (name : List Char) : Bool := "lo".toList.isPrefixOf name

/-- The name starts with `rmnet`. -/
def isRmnet (name : List Char) : Bool := "rmnet".toList.isPrefixOf name

/-- The counters an aggregation loop reads successfully (`num >= 0`), in enumeration
order, for the entry test `flt`. -/
def reads (w : World) (flt : List Char → Bool) (suffix : List Char)
    (entries : List (List Char)) : List Int :=
  ((entries.filter flt).map (fun e => readNumber w (counterFile e suffix))).filter
    (fun x => decide (0 ≤ x))

/-- The number written by a string of decimal digits. -/
def decimalValue (ds : List Char) : Nat := Nat.ofDigits 10 (ds.map digitVal).reverse

/-! ## Example worlds -/

/-- A world given by a finite table of files; every other path does not exist. -/
def tableWorld (files : List (String × String)) (dir : List String) : World where
  files := fun p =>
    match files.find? (fun e => e.1.toList == p) with
    | some e => FileState.data e.2.toList
    | none => FileState.noEntry
  netDir := some (dir.map String.toList)

/-- The scenario of the specification: `lo`, `rmnet0`, `rmnet1`, `wlan0`. -/
def scenario : World :=
  tableWorld
    [("/sys/class/net/lo/statistics/tx_bytes", "999\n"),
     ("/sys/class/net/rmnet0/statistics/tx_bytes", "100\n"),
     ("/sys/class/net/rmnet1/statistics/tx_bytes", "50\n"),
     ("/sys/class/net/wlan0/statistics/tx_bytes", "10\n")]
    [".", "..", "lo", "rmnet0", "rmnet1", "wlan0"]

/-- The counter values of the scenario, by interface name. -/
def scenarioValue (name : List Char) : Nat :=
  if name = "lo".toList then 999
  else if name = "rmnet0".toList then 100
  else if name = "rmnet1".toList then 50
  else if name = "wlan0".toList then 10
  else 0

/-- The scenario with the counters of `rmnet0` at zero and no other counter file. -/
def idleWorld : World :=
  tableWorld
    [("/sys/class/net/rmnet0/statistics/tx_bytes", "0\n")]
    [".", "..", "lo", "rmnet0", "wlan0"]

/-- A world without any rmnet interface, with the `ppp0` counter file. -/
def pppWorld : World :=
  tableWorld
    [("/sys/class/net/ppp0/statistics/tx_packets", "42\n"),
     ("/sys/class/net/ppp0/statistics/rx_bytes", "7000\n"),
     ("/sys/class/net/wlan0/statistics/rx_bytes", "10\n")]
    [".", "..", "lo", "ppp0", "wlan0"]

/-- A world with the per-uid counter files of uid 10007. -/
def uidWorld : World :=
  tableWorld
    [("/proc/uid_stat/10007/tcp_rcv", "12345\n"),
     ("/proc/uid_stat/10007/tcp_snd", "678\n")]
    []

/-- A world holding one counter file with the largest `jlong`. -/
def maxWorld : World :=
  tableWorld [("/sys/class/net/wlan0/statistics/rx_bytes", "9223372036854775807")] ["wlan0"]

/-- The scenario after changes to loopback interfaces only: `lo0` appears, and every
file below a `lo*` interface now reads `5`. -/
def scenarioLo : World where
  files := fun p =>
    if "/sys/class/net/lo".toList.isPrefixOf p then FileState.data "5\n".toList
    else scenario.files p
  netDir := some ([".", "..", "rmnet0", "lo0", "rmnet1", "wlan0", "lo"].map String.toList)

/-- A per-uid counter file holding twenty nines, more than a `jlong` can hold. -/
def bigUidWorld : World :=
  tableWorld [("/proc/uid_stat/10007/tcp_rcv", "99999999999999999999\n")] []

/-- A per-uid counter file holding eighty digits, seventy-nine zeros and a seven. -/
def paddedUidWorld : World where
  files := fun p =>
    if p = "/proc/uid_stat/10007/tcp_snd".toList then
      FileState.data (List.replicate 79 '0' ++ "7\n".toList)
    else FileState.noEntry
  netDir := some []

/-- Two rmnet interfaces whose `tx_bytes` counters add up to `2^63`; there is no `ppp0`
fall-back file. -/
def overflowWorldNoPpp : World :=
  tableWorld
    [("/sys/class/net/rmnet0/statistics/tx_bytes", "9223372036854775807\n"),
     ("/sys/class/net/rmnet1/statistics/tx_bytes", "1\n")]
    [".", "..", "lo", "rmnet0", "rmnet1", "ppp0"]

/-- The world `overflowWorldNoPpp` with a `ppp0` fall-back file reading `7`. -/
def overflowWorld : World :=
  ⟨Function.update overflowWorldNoPpp.files pppFallback (FileState.data "7\n".toList),
    overflowWorldNoPpp.netDir⟩

/-- Only `wlan0` has a counter file; the directory lists no interface yet. -/
def beforeWorld : World :=
  tableWorld [("/sys/class/net/wlan0/statistics/tx_bytes", "10\n")] [".", ".."]

/-- The world `beforeWorld` once `wlan0` is listed. -/
def afterWorld : World :=
  ⟨beforeWorld.files, some ([".", "..", "wlan0"].map String.toList)⟩

/-! ## Decimal text and `atoll` -/

theorem digitChar_isdigit (m : Nat) (h : m < 10) :
    isdigit (Nat.digitChar m) = true ∧ digitVal (Nat.digitChar m) = m := by
  interval_cases m <;> decide

theorem toDigitsCore_append (f : Nat) : ∀ (n : Nat) (ds r : List Char),
    Nat.toDigitsCore 10 f n (ds ++ r) = Nat.toDigitsCore 10 f n ds ++ r := by
  induction f with
  | zero => intro n ds r; simp [Nat.toDigitsCore]
  | succ f ih =>
    intro n ds r
    simp only [Nat.toDigitsCore]
    split
    · simp
    · rw [← List.cons_append, ih]

theorem parseDigits_toDigitsCore (f : Nat) : ∀ (n : Nat) (ds : List Char), n < f →
    ∃ k, ∀ acc, parseDigits acc (Nat.toDigitsCore 10 f n ds) = parseDigits (acc * 10 ^ k + n) ds := by
  induction f with
  | zero => intro n ds h; omega
  | succ f ih =>
    intro n ds h
    have hd := digitChar_isdigit (n % 10) (Nat.mod_lt _ (by decide))
    simp only [Nat.toDigitsCore]
    split
    · rename_i h0
      refine ⟨1, fun acc => ?_⟩
      have hn : n % 10 = n := by omega
      rw [hn] at hd
      simp only [parseDigits, hn, hd.1, hd.2, if_true, pow_one]
    · rename_i h0
      obtain ⟨k, hk⟩ := ih (n / 10) (Nat.digitChar (n % 10) :: ds) (by omega)
      refine ⟨k + 1, fun acc => ?_⟩
      rw [hk]
      simp only [parseDigits, hd.1, hd.2, if_true]
      congr 1
      rw [pow_succ]
      have := Nat.div_add_mod n 10
      nlinarith

theorem toDigitsCore_head (f : Nat) : ∀ (n : Nat) (d : Char) (ds : List Char),
    isdigit d = true →
    ∃ c tl, Nat.toDigitsCore 10 f n (d :: ds) = c :: tl ∧ isdigit c = true := by
  induction f with
  | zero => intro n d ds h; exact ⟨d, ds, rfl, h⟩
  | succ f ih =>
    intro n d ds h
    have hd := digitChar_isdigit (n % 10) (Nat.mod_lt _ (by decide))
    simp only [Nat.toDigitsCore]
    split
    · exact ⟨_, _, rfl, hd.1⟩
    · exact ih _ _ _ hd.1

theorem toDigits_head (n : Nat) :
    ∃ c tl, Nat.toDigits 10 n = c :: tl ∧ isdigit c = true := by
  have hd := digitChar_isdigit (n % 10) (Nat.mod_lt _ (by decide))
  simp only [Nat.toDigits, Nat.toDigitsCore]
  split
  · exact ⟨_, _, rfl, hd.1⟩
  · exact toDigitsCore_head _ _ _ _ hd.1

theorem toDigits_length (n e : Nat) (he : 0 < e) (h : n < 10 ^ e) :
    (Nat.toDigits 10 n).length ≤ e :=
  Nat.toDigitsCore_length 10 (by decide) (n + 1) n e h he

theorem parseDigits_stop (acc : Nat) (rest : List Char)
    (h : ∀ c, rest.head? = some c → isdigit c = false) : parseDigits acc rest = acc := by
  cases rest with
  | nil => rfl
  | cons c cs => simp [parseDigits, h c rfl]

theorem parseDigits_toDigits (n : Nat) (rest : List Char)
    (h : ∀ c, rest.head? = some c → isdigit c = false) :
    parseDigits 0 (Nat.toDigits 10 n ++ rest) = n := by
  obtain ⟨k, hk⟩ := parseDigits_toDigitsCore (n + 1) n [] (by omega)
  have := toDigitsCore_append (n + 1) n [] rest
  simp only [List.nil_append] at this
  rw [Nat.toDigits, ← this]
  obtain ⟨k, hk⟩ := parseDigits_toDigitsCore (n + 1) n rest (by omega)
  rw [hk, parseDigits_stop _ _ h]; simp

theorem isdigit_not_space (c : Char) (h : isdigit c = true) :
    isspace c = false ∧ c ≠ '-' ∧ c ≠ '+' := by
  simp only [isdigit, decide_eq_true_eq] at h
  have h1 : 48 ≤ c.toNat := h.1
  have h2 : c.toNat ≤ 57 := h.2
  refine ⟨?_, ?_, ?_⟩
  · simp only [isspace, Bool.or_eq_false_iff, beq_eq_false_iff_ne, ne_eq]
    refine ⟨⟨⟨⟨⟨?_, ?_⟩, ?_⟩, ?_⟩, ?_⟩, ?_⟩ <;> (rintro rfl; revert h1 h2; decide)
  · rintro rfl; revert h1 h2; decide
  · rintro rfl; revert h1 h2; decide

/-- The parse of decimal text followed by something that is not a digit. -/
theorem atoll_toDigits (n : Nat) (rest : List Char) (hn : n ≤ 2 ^ 63 - 1)
    (h : ∀ c, rest.head? = some c → isdigit c = false) :
    atoll (Nat.toDigits 10 n ++ rest) = n := by
  obtain ⟨c, tl, hc, hdig⟩ := toDigits_head n
  have hp := parseDigits_toDigits n rest h
  obtain ⟨hs, hm, hpl⟩ := isdigit_not_space c hdig
  rw [hc] at hp
  simp only [atoll, hc, List.cons_append, List.dropWhile_cons, hs, Bool.false_eq_true,
    if_false, List.head?_cons, Option.some.injEq, hm, hpl]
  rw [← List.cons_append, hp]
  omega

/-! ## `readNumber` -/

theorem head?_take_imp (k : Nat) (rest : List Char) (c : Char)
    (h : (rest.take k).head? = some c) : rest.head? = some c := by
  cases rest with
  | nil => simp at h
  | cons a t =>
    cases k with
    | zero => simp at h
    | succ k => simpa using h

theorem readNumber_data (w : World) (p bytes : List Char)
    (h : w.files p = FileState.data bytes) : readNumber w p = atoll (bytes.take 79) := by
  simp [readNumber, HAVE_ANDROID_OS, h]

theorem readNumber_holds (w : World) (p : List Char) (n : Nat) (hn : n ≤ 2 ^ 63 - 1)
    (h : HoldsNumber (w.files p) n) : readNumber w p = n := by
  obtain ⟨rest, hst, hrest⟩ := h
  have hlen : (Nat.toDigits 10 n).length ≤ 19 :=
    toDigits_length n 19 (by decide) (by omega)
  rw [readNumber_data w p _ hst, List.take_append_eq_append_take,
    List.take_of_length_le (by omega)]
  exact atoll_toDigits n _ hn (fun c hc => hrest c (head?_take_imp _ _ _ hc))

theorem atoll_range (s : List Char) : -(2 ^ 63) ≤ atoll s ∧ atoll s ≤ 2 ^ 63 - 1 := by
  simp only [atoll]
  split_ifs <;> omega

theorem readNumber_range (w : World) (p : List Char) :
    -(2 ^ 63) ≤ readNumber w p ∧ readNumber w p ≤ 2 ^ 63 - 1 := by
  unfold readNumber
  split
  · split
    · omega
    · omega
    · omega
    · exact atoll_range _
  · omega

theorem readNumber_unreadable (w : World) (p : List Char)
    (h : ∀ bytes, w.files p ≠ FileState.data bytes) : readNumber w p = -1 := by
  unfold readNumber
  split
  · split
    · rfl
    · rfl
    · rfl
    · rename_i bytes hb; exact absurd hb (h bytes)
  · rfl

theorem readNumber_not_readable (w : World) (p : List Char)
    (h : (w.files p).readable = false) : readNumber w p = -1 := by
  apply readNumber_unreadable
  intro bytes hb
  rw [hb] at h
  simp [FileState.readable] at h

theorem readNumber_noEntry (w : World) (p : List Char)
    (h : w.files p = FileState.noEntry) : readNumber w p = -1 := by
  simp [readNumber, h]

/-! ## File names and entry tests -/

theorem netBase_length : netBase.length = 15 := by decide

/-- When the name and the suffix fit in the buffer nothing is cut off. -/
theorem counterFile_eq (d_name suffix : List Char)
    (h : d_name.length + suffix.length ≤ 4080) :
    counterFile d_name suffix = netBase ++ d_name ++ suffix := by
  have h1 : List.take (PATH_MAX - netBase.length - 1) d_name = d_name :=
    List.take_of_length_le (by simp only [PATH_MAX, netBase_length]; omega)
  simp only [counterFile, strlcat, strlcpy, h1, List.append_assoc, List.append_cancel_left_eq]
  exact List.take_of_length_le
    (by simp only [PATH_MAX, List.length_append, netBase_length]; omega)

theorem strncmpEq_length (s p : List Char) : strncmpEq s p p.length = p.isPrefixOf s := by
  rw [Bool.eq_iff_iff]
  simp only [strncmpEq, List.take_length, beq_iff_eq, List.isPrefixOf_iff_prefix,
    List.prefix_iff_eq_take]
  exact eq_comm

theorem totalFilter_eq (name : List Char) : totalFilter name = qualifying name := by
  have h := strncmpEq_length name "lo".toList
  have h2 : "lo".toList.length = 2 := rfl
  rw [h2] at h
  simp only [totalFilter, qualifying, h]
  congr 1
  have e1 : ("." : String).toList = ['.'] := rfl
  rw [e1]
  cases name with
  | nil => rfl
  | cons a t =>
    by_cases ha : a = '.'
    · subst ha; simp [List.isPrefixOf]
    · have h1 : ('.' == a) = false := beq_eq_false_iff_ne.mpr (Ne.symm ha)
      have h3 : (some a != some '.') = true := bne_iff_ne.mpr (by simpa using ha)
      simp only [List.head?_cons, List.isPrefixOf, Bool.and_true, h1, h3, Bool.not_false]

theorem rmnetFilter_eq (name : List Char) : rmnetFilter name = isRmnet name := by
  have h : strncmpEq name RMNET_PREFIX RMNET_PREFIX.length = RMNET_PREFIX.isPrefixOf name :=
    strncmpEq_length _ _
  have hlo := totalFilter_eq name
  simp only [totalFilter] at hlo
  simp only [rmnetFilter, h]
  rw [hlo]
  simp only [isRmnet, RMNET_PREFIX, qualifying]
  have e1 : ("." : String).toList = ['.'] := rfl
  have e2 : ("lo" : String).toList = ['l', 'o'] := rfl
  have e3 : ("rmnet" : String).toList = ['r', 'm', 'n', 'e', 't'] := rfl
  rw [e1, e2, e3]
  cases name with
  | nil => rfl
  | cons a t =>
    by_cases ha : a = 'r'
    · subst ha
      have d1 : ('.' : Char) ≠ 'r' := by decide
      have d2 : ('l' : Char) ≠ 'r' := by decide
      simp [List.isPrefixOf, d1, d2]
    · simp [List.isPrefixOf, Ne.symm ha]

/-! ## The accumulator -/

theorem wrapJlong_id (x : Int) (h0 : -(2 ^ 63) ≤ x) (h1 : x ≤ 2 ^ 63 - 1) : wrapJlong x = x := by
  unfold wrapJlong
  omega

theorem accumulate_neg (total num : Int) (h : num < 0) : accumulate total num = total := by
  simp [accumulate, not_le.mpr h]

theorem accumulate_first (total num : Int) (h : 0 ≤ num) (ht : total < 0) :
    accumulate total num = num := by
  simp [accumulate, h, ht]

theorem accumulate_add (total num : Int) (h : 0 ≤ num) (ht : 0 ≤ total) :
    accumulate total num = wrapJlong (total + num) := by
  simp [accumulate, h, not_lt.mpr ht]

theorem foldl_loop (w : World) (flt : List Char → Bool) (suffix : List Char) :
    ∀ (entries : List (List Char)) (total : Int),
      entries.foldl (fun t e =>
        if flt e then accumulate t (readNumber w (counterFile e suffix)) else t) total
      = (reads w flt suffix entries).foldl accumulate total := by
  intro entries
  induction entries with
  | nil => intro total; rfl
  | cons e es ih =>
    intro total
    simp only [List.foldl_cons, ih, reads, List.filter_cons]
    by_cases hf : flt e = true
    · simp only [hf, if_true, List.map_cons, List.filter_cons]
      by_cases hn : 0 ≤ readNumber w (counterFile e suffix)
      · simp [hn]
      · simp [hn, accumulate_neg _ _ (not_le.mp hn)]
    · simp [hf]

theorem readTotal_eq (w : World) (suffix : List Char) (entries : List (List Char))
    (h : w.netDir = some entries) :
    readTotal w suffix = (reads w totalFilter suffix entries).foldl accumulate (-1) := by
  simp only [readTotal, HAVE_ANDROID_OS, if_true, h]
  exact foldl_loop w totalFilter suffix entries (-1)

theorem readRmNetStats_eq (w : World) (suffix : List Char) (entries : List (List Char))
    (h : w.netDir = some entries) :
    readRmNetStats w suffix = (reads w rmnetFilter suffix entries).foldl accumulate (-1) := by
  simp only [readRmNetStats, HAVE_ANDROID_OS, if_true, h]
  exact foldl_loop w rmnetFilter suffix entries (-1)

theorem reads_nonneg (w : World) (flt : List Char → Bool) (suffix : List Char)
    (entries : List (List Char)) : ∀ x ∈ reads w flt suffix entries, 0 ≤ x := by
  intro x hx
  simp only [reads, List.mem_filter, decide_eq_true_eq] at hx
  exact hx.2

theorem reads_le (w : World) (flt : List Char → Bool) (suffix : List Char)
    (entries : List (List Char)) : ∀ x ∈ reads w flt suffix entries, x ≤ 2 ^ 63 - 1 := by
  intro x hx
  simp only [reads, List.mem_filter, List.mem_map] at hx
  obtain ⟨⟨e, -, rfl⟩, -⟩ := hx
  exact (readNumber_range w _).2

theorem sum_nonneg_of (cs : List Int) (h : ∀ x ∈ cs, 0 ≤ x) : 0 ≤ cs.sum := by
  induction cs with
  | nil => simp
  | cons c cs ih =>
    have h1 := h c (List.mem_cons_self _ _)
    have h2 := ih (fun x hx => h x (List.mem_cons_of_mem _ hx))
    simp only [List.sum_cons]
    omega

/-- While nothing overflows the loop adds the counters up. -/
theorem foldl_accumulate_sum : ∀ (cs : List Int) (total : Int), 0 ≤ total →
    (∀ x ∈ cs, 0 ≤ x) → total + cs.sum ≤ 2 ^ 63 - 1 →
    cs.foldl accumulate total = total + cs.sum := by
  intro cs
  induction cs with
  | nil => intro total _ _ _; simp
  | cons c cs ih =>
    intro total ht hcs hsum
    have hc := hcs c (List.mem_cons_self _ _)
    have hrest : ∀ x ∈ cs, 0 ≤ x := fun x hx => hcs x (List.mem_cons_of_mem _ hx)
    have hs := sum_nonneg_of cs hrest
    simp only [List.sum_cons] at hsum
    have hw : wrapJlong (total + c) = total + c := wrapJlong_id _ (by omega) (by omega)
    simp only [List.foldl_cons, List.sum_cons, accumulate_add _ _ hc ht, hw]
    rw [ih (total + c) (by omega) hrest (by omega)]
    omega

/-- Starting from the empty accumulator: the first counter is taken as it is. -/
theorem foldl_accumulate_start (cs : List Int) (total : Int) (ht : total < 0)
    (hcs : ∀ x ∈ cs, 0 ≤ x) (hne : cs ≠ []) (hsum : cs.sum ≤ 2 ^ 63 - 1) :
    cs.foldl accumulate total = cs.sum := by
  cases cs with
  | nil => exact absurd rfl hne
  | cons c cs =>
    have hc := hcs c (List.mem_cons_self _ _)
    have hrest : ∀ x ∈ cs, 0 ≤ x := fun x hx => hcs x (List.mem_cons_of_mem _ hx)
    simp only [List.sum_cons] at hsum
    simp only [List.foldl_cons, List.sum_cons, accumulate_first _ _ hc ht]
    exact foldl_accumulate_sum cs c hc hrest hsum

theorem reads_of_holds (w : World) (flt : List Char → Bool) (suffix : List Char)
    (entries : List (List Char)) (v : List Char → Nat) (hsfx : suffix.length ≤ 3825)
    (h : ∀ e ∈ entries, flt e = true → e.length ≤ 255 ∧ (v e : Int) ≤ 2 ^ 63 - 1 ∧
      HoldsNumber (w.files (netBase ++ e ++ suffix)) (v e)) :
    reads w flt suffix entries = (entries.filter flt).map (fun e => (v e : Int)) := by
  have hmap : (entries.filter flt).map (fun e => readNumber w (counterFile e suffix))
      = (entries.filter flt).map (fun e => (v e : Int)) := by
    apply List.map_congr_left
    intro e he
    obtain ⟨hmem, hflt⟩ := List.mem_filter.mp he
    obtain ⟨hl, hv, hh⟩ := h e hmem hflt
    rw [counterFile_eq e suffix (by omega)]
    exact readNumber_holds w _ (v e) (by omega) hh
  rw [reads, hmap, List.filter_eq_self]
  intro x hx
  obtain ⟨e, -, rfl⟩ := List.mem_map.mp hx
  simp

theorem mem_le_sum (cs : List Int) (h : ∀ x ∈ cs, 0 ≤ x) : ∀ x ∈ cs, x ≤ cs.sum := by
  induction cs with
  | nil => intro x hx; simp at hx
  | cons c cs ih =>
    intro x hx
    have hc := h c (List.mem_cons_self _ _)
    have hrest : ∀ y ∈ cs, 0 ≤ y := fun y hy => h y (List.mem_cons_of_mem _ hy)
    have hs := sum_nonneg_of cs hrest
    simp only [List.sum_cons]
    rcases List.mem_cons.mp hx with rfl | hx
    · omega
    · have := ih hrest x hx
      omega

theorem formatD_length (i : Int) (hlo : -(2 ^ 31) ≤ i) (hhi : i < 2 ^ 31) :
    (formatD i).length ≤ 11 := by
  unfold formatD
  split
  · have := toDigits_length i.natAbs 10 (by decide) (by omega)
    simp only [List.length_cons]
    omega
  · have := toDigits_length i.toNat 10 (by decide) (by omega)
    omega

theorem readRmNetStats_none (w : World) (suffix : List Char)
    (h : ∀ es, w.netDir = some es → ∀ e ∈ es, isRmnet e = false) :
    readRmNetStats w suffix = -1 := by
  cases hd : w.netDir with
  | none => simp [readRmNetStats, hd]
  | some es =>
    have hempty : es.filter rmnetFilter = [] := by
      rw [List.filter_eq_nil_iff]
      intro e he
      rw [rmnetFilter_eq, h es hd e he]
      simp
    rw [readRmNetStats_eq w suffix es hd, reads, hempty]
    rfl

/-! ## The claims -/

/-- C1: when the directory listing, in whatever order it is enumerated, has at least one
interface whose name starts neither with `.` nor with `lo`, each such interface has a
counter file for the suffix holding a valid non-negative decimal integer, and the
values add up to at most `2^63 - 1`, then `readTotal` returns exactly the sum of those
values. -/
theorem readTotal_exact_sum (w : World) (suffix : List Char)
    (ifaces listing : List (List Char)) (v : List Char → Nat)
    (hdir : w.netDir = some listing) (horder : listing.Perm ifaces)
    (hsfx : suffix.length ≤ 3825)
    (hname : ∀ e ∈ ifaces, e.length ≤ 255)
    (hsome : ∃ e ∈ ifaces, qualifying e = true)
    (hfile : ∀ e ∈ ifaces, qualifying e = true →
      HoldsNumber (w.files (netBase ++ e ++ suffix)) (v e))
    (hsum : ((ifaces.filter qualifying).map (fun e => (v e : Int))).sum ≤ 2 ^ 63 - 1) :
    readTotal w suffix = ((ifaces.filter qualifying).map (fun e => (v e : Int))).sum := by
  have hflt : totalFilter = qualifying := funext totalFilter_eq
  have hp : ((listing.filter qualifying).map (fun e => (v e : Int))).Perm
      ((ifaces.filter qualifying).map (fun e => (v e : Int))) :=
    (horder.filter _).map _
  have hnn : ∀ x ∈ (ifaces.filter qualifying).map (fun e => (v e : Int)), 0 ≤ x := by
    intro x hx
    obtain ⟨e, -, rfl⟩ := List.mem_map.mp hx
    simp
  have hr : reads w totalFilter suffix listing
      = (listing.filter qualifying).map (fun e => (v e : Int)) := by
    rw [hflt]
    apply reads_of_holds w qualifying suffix listing v hsfx
    intro e he hq
    have hmem : e ∈ ifaces := horder.mem_iff.mp he
    refine ⟨hname e hmem, ?_, hfile e hmem hq⟩
    have : (v e : Int) ∈ (ifaces.filter qualifying).map (fun e => (v e : Int)) :=
      List.mem_map.mpr ⟨e, List.mem_filter.mpr ⟨hmem, hq⟩, rfl⟩
    exact le_trans (mem_le_sum _ hnn _ this) hsum
  rw [readTotal_eq w suffix listing hdir, hr, ← hp.sum_eq]
  apply foldl_accumulate_start
  · decide
  · intro x hx
    exact hnn x (hp.mem_iff.mp hx)
  · obtain ⟨e, he, hq⟩ := hsome
    intro hnil
    have : (v e : Int) ∈ (listing.filter qualifying).map (fun e => (v e : Int)) :=
      List.mem_map.mpr ⟨e, List.mem_filter.mpr ⟨horder.mem_iff.mpr he, hq⟩, rfl⟩
    rw [hnil] at this
    simp at this
  · rw [hp.sum_eq]; exact hsum

theorem newline_not_digit : ∀ c, "\n".toList.head? = some c → isdigit c = false := by
  intro c hc
  have : c = '\n' := by
    have h : ("\n" : String).toList.head? = some '\n' := rfl
    rw [h] at hc
    exact (Option.some.inj hc).symm
  subst this
  decide

/-- C1 at the scenario of the specification (the listing enumerated in another order):
`lo=999, rmnet0=100, rmnet1=50, wlan0=10` gives `TotalTxBytes = 160`. -/
theorem readTotal_exact_sum_witness : getTotalTxBytes scenario = 160 :=
  (readTotal_exact_sum scenario "/statistics/tx_bytes".toList
    (["wlan0", "rmnet1", "..", "lo", ".", "rmnet0"].map String.toList)
    ([".", "..", "lo", "rmnet0", "rmnet1", "wlan0"].map String.toList)
    scenarioValue rfl (by decide) (by decide) (by decide)
    ⟨"wlan0".toList, by decide, by decide⟩
    (by
      intro e he hq
      simp only [List.map_cons, List.map_nil, List.mem_cons, List.mem_nil_iff, or_false] at he
      rcases he with rfl | rfl | rfl | rfl | rfl | rfl
      · exact ⟨"\n".toList, by decide, newline_not_digit⟩
      · exact ⟨"\n".toList, by decide, newline_not_digit⟩
      · exact absurd hq (by decide)
      · exact absurd hq (by decide)
      · exact absurd hq (by decide)
      · exact ⟨"\n".toList, by decide, newline_not_digit⟩)
    (by decide)).trans (by decide)

theorem reads_append (w : World) (flt : List Char → Bool) (suffix : List Char)
    (xs ys : List (List Char)) :
    reads w flt suffix (xs ++ ys) = reads w flt suffix xs ++ reads w flt suffix ys := by
  simp [reads]

theorem reads_nil_of_not_readable (w : World) (flt : List Char → Bool) (suffix : List Char)
    (entries : List (List Char)) (hsfx : suffix.length ≤ 3825)
    (hname : ∀ e ∈ entries, e.length ≤ 255)
    (h : ∀ e ∈ entries, flt e = true → (w.files (netBase ++ e ++ suffix)).readable = false) :
    reads w flt suffix entries = [] := by
  simp only [reads, List.filter_eq_nil_iff, List.mem_map, List.mem_filter, decide_eq_true_eq,
    not_le]
  rintro x ⟨e, ⟨he, hf⟩, rfl⟩
  have hl := hname e he
  rw [counterFile_eq e suffix (by omega), readNumber_not_readable w _ (h e he hf)]
  decide

theorem reads_single_zero (w : World) (flt : List Char → Bool) (suffix : List Char)
    (e : List Char) (hsfx : suffix.length ≤ 3825) (hname : e.length ≤ 255)
    (hf : flt e = true) (h : HoldsNumber (w.files (netBase ++ e ++ suffix)) 0) :
    reads w flt suffix [e] = [0] := by
  have := reads_of_holds w flt suffix [e] (fun _ => 0) hsfx
    (by
      intro x hx _
      rw [List.mem_singleton.mp hx]
      exact ⟨hname, by norm_num, h⟩)
  simpa [hf] using this

/-- C2: empty versus zero, for `readTotal` and `readRmNetStats`.  When no listed interface
passes the name filter with a readable counter file the aggregate is `-1`; when exactly
one does and its counter is `0`, the aggregate is `0`. -/
theorem empty_vs_zero (w : World) (suffix : List Char) (listing : List (List Char))
    (hdir : w.netDir = some listing) (hsfx : suffix.length ≤ 3825)
    (hname : ∀ e ∈ listing, e.length ≤ 255) :
    ((∀ e ∈ listing, qualifying e = true →
        (w.files (netBase ++ e ++ suffix)).readable = false) →
      readTotal w suffix = -1) ∧
    ((∀ e ∈ listing, isRmnet e = true →
        (w.files (netBase ++ e ++ suffix)).readable = false) →
      readRmNetStats w suffix = -1) ∧
    (∀ pre e post, listing = pre ++ e :: post → qualifying e = true →
      HoldsNumber (w.files (netBase ++ e ++ suffix)) 0 →
      (∀ x ∈ pre ++ post, qualifying x = true →
        (w.files (netBase ++ x ++ suffix)).readable = false) →
      readTotal w suffix = 0) ∧
    (∀ pre e post, listing = pre ++ e :: post → isRmnet e = true →
      HoldsNumber (w.files (netBase ++ e ++ suffix)) 0 →
      (∀ x ∈ pre ++ post, isRmnet x = true →
        (w.files (netBase ++ x ++ suffix)).readable = false) →
      readRmNetStats w suffix = 0) := by
  have hflt : totalFilter = qualifying := funext totalFilter_eq
  have hrm : rmnetFilter = isRmnet := funext rmnetFilter_eq
  have key : ∀ flt : List Char → Bool, ∀ pre e post, listing = pre ++ e :: post →
      flt e = true → HoldsNumber (w.files (netBase ++ e ++ suffix)) 0 →
      (∀ x ∈ pre ++ post, flt x = true →
        (w.files (netBase ++ x ++ suffix)).readable = false) →
      reads w flt suffix listing = [0] := by
    intro flt pre e post hl hf hz hno
    have hpre := reads_nil_of_not_readable w flt suffix pre hsfx
      (fun x hx => hname x (by rw [hl]; exact List.mem_append_left _ hx))
      (fun x hx => hno x (List.mem_append_left _ hx))
    have hpost := reads_nil_of_not_readable w flt suffix post hsfx
      (fun x hx => hname x
        (by rw [hl]; exact List.mem_append_right _ (List.mem_cons_of_mem _ hx)))
      (fun x hx => hno x (List.mem_append_right _ hx))
    have he := reads_single_zero w flt suffix e hsfx
      (hname e (by rw [hl]; exact List.mem_append_right _ (List.mem_cons_self _ _))) hf hz
    have hsplit : pre ++ e :: post = pre ++ ([e] ++ post) := by simp
    rw [hl, hsplit, reads_append, reads_append, hpre, hpost, he]
    rfl
  refine ⟨?_, ?_, ?_, ?_⟩
  · intro h
    rw [readTotal_eq w suffix listing hdir, hflt,
      reads_nil_of_not_readable w qualifying suffix listing hsfx hname h]
    rfl
  · intro h
    rw [readRmNetStats_eq w suffix listing hdir, hrm,
      reads_nil_of_not_readable w isRmnet suffix listing hsfx hname h]
    rfl
  · intro pre e post hl hq hz hno
    rw [readTotal_eq w suffix listing hdir, hflt, key qualifying pre e post hl hq hz hno]
    rfl
  · intro pre e post hl hq hz hno
    rw [readRmNetStats_eq w suffix listing hdir, hrm, key isRmnet pre e post hl hq hz hno]
    rfl

/-- C4: without any rmnet interface in the listing, each of the four mobile queries
returns what `readNumber` returns for `/sys/class/net/ppp0/statistics/tx_packets`,
which is `-1` when that file does not exist. -/
theorem mobile_fallback (w : World)
    (h : ∀ listing, w.netDir = some listing → ∀ e ∈ listing, isRmnet e = false) :
    (getMobileTxPackets w
        = readNumber w "/sys/class/net/ppp0/statistics/tx_packets".toList ∧
      getMobileRxPackets w
        = readNumber w "/sys/class/net/ppp0/statistics/tx_packets".toList ∧
      getMobileTxBytes w
        = readNumber w "/sys/class/net/ppp0/statistics/tx_packets".toList ∧
      getMobileRxBytes w
        = readNumber w "/sys/class/net/ppp0/statistics/tx_packets".toList) ∧
    (w.files "/sys/class/net/ppp0/statistics/tx_packets".toList = FileState.noEntry →
      getMobileTxPackets w = -1 ∧ getMobileRxPackets w = -1 ∧
      getMobileTxBytes w = -1 ∧ getMobileRxBytes w = -1) := by
  have hq : ∀ suffix, readRmNetStats w suffix = -1 := fun s => readRmNetStats_none w s h
  have h4 : getMobileTxPackets w
        = readNumber w "/sys/class/net/ppp0/statistics/tx_packets".toList ∧
      getMobileRxPackets w
        = readNumber w "/sys/class/net/ppp0/statistics/tx_packets".toList ∧
      getMobileTxBytes w
        = readNumber w "/sys/class/net/ppp0/statistics/tx_packets".toList ∧
      getMobileRxBytes w
        = readNumber w "/sys/class/net/ppp0/statistics/tx_packets".toList := by
    simp [getMobileTxPackets, getMobileRxPackets, getMobileTxBytes, getMobileRxBytes, hq,
      pppFallback]
  refine ⟨h4, fun habs => ?_⟩
  obtain ⟨a, b, c, d⟩ := h4
  rw [a, b, c, d, readNumber_noEntry w _ habs]
  exact ⟨rfl, rfl, rfl, rfl⟩

/-- C6: round trip of `readNumber`.  For every `N` with `0 ≤ N ≤ 2^63 - 1`, a file whose
contents are the ASCII decimal text of `N` is read back as exactly `N`; the text fits in
the 79 bytes that are read. -/
theorem readNumber_roundtrip (w : World) (filename : List Char) (N : Nat)
    (hN : N ≤ 2 ^ 63 - 1)
    (hfile : w.files filename = FileState.data (Nat.repr N).toList) :
    readNumber w filename = N ∧ (Nat.repr N).toList.length ≤ 79 := by
  have hrepr : (Nat.repr N).toList = Nat.toDigits 10 N := rfl
  rw [hrepr] at hfile ⊢
  refine ⟨readNumber_holds w filename N hN ⟨[], by simpa using hfile, by simp⟩, ?_⟩
  have := toDigits_length N 19 (by decide) (by omega)
  omega

/-- C10: for every 32-bit signed uid the two formatted file names are at most 34
characters long, so with the terminating NUL they fit in the 80-byte buffer. -/
theorem uid_path_fits (uid : Int) (hlo : -(2 ^ 31) ≤ uid) (hhi : uid < 2 ^ 31) :
    (uidRcvFile uid).length ≤ 34 ∧ (uidSndFile uid).length ≤ 34 ∧
    (uidRcvFile uid).length + 1 ≤ 80 ∧ (uidSndFile uid).length + 1 ≤ 80 := by
  have h := formatD_length uid hlo hhi
  have h1 : "/proc/uid_stat/".toList.length = 15 := rfl
  have h2 : "/tcp_rcv".toList.length = 8 := rfl
  have h3 : "/tcp_snd".toList.length = 8 := rfl
  simp only [uidRcvFile, uidSndFile, List.length_append, h1, h2, h3]
  omega

/-- C2 at `idleWorld`: the only counter file is the one of `rmnet0` and holds `0`; for
`tx_bytes` both aggregates are `0`, for `rx_bytes` (no file at all) both are `-1`. -/
theorem empty_vs_zero_witness :
    (readTotal idleWorld "/statistics/tx_bytes".toList = 0 ∧
      readRmNetStats idleWorld "/statistics/tx_bytes".toList = 0) ∧
    (readTotal idleWorld "/statistics/rx_bytes".toList = -1 ∧
      readRmNetStats idleWorld "/statistics/rx_bytes".toList = -1) := by
  have htx := empty_vs_zero idleWorld "/statistics/tx_bytes".toList
    ([".", "..", "lo", "rmnet0", "wlan0"].map String.toList) rfl (by decide) (by decide)
  have hrx := empty_vs_zero idleWorld "/statistics/rx_bytes".toList
    ([".", "..", "lo", "rmnet0", "wlan0"].map String.toList) rfl (by decide) (by decide)
  refine ⟨⟨?_, ?_⟩, hrx.1 (by decide), hrx.2.1 (by decide)⟩
  · exact htx.2.2.1 ([".", "..", "lo"].map String.toList) "rmnet0".toList
      (["wlan0"].map String.toList) rfl (by decide)
      ⟨"\n".toList, by decide, newline_not_digit⟩ (by decide)
  · exact htx.2.2.2 ([".", "..", "lo"].map String.toList) "rmnet0".toList
      (["wlan0"].map String.toList) rfl (by decide)
      ⟨"\n".toList, by decide, newline_not_digit⟩ (by decide)

/-- C4 at `pppWorld`: no rmnet interface; the received-bytes query returns the `42` of
the `ppp0` transmitted-packets file. -/
theorem mobile_fallback_witness :
    getMobileRxBytes pppWorld = 42 ∧ getMobileTxPackets pppWorld = 42 :=
  have h := mobile_fallback pppWorld (by
    intro listing hl e he
    have hl2 : listing = [".", "..", "lo", "ppp0", "wlan0"].map String.toList :=
      (Option.some.inj hl).symm
    subst hl2
    revert e
    decide)
  ⟨h.1.2.2.2.trans (by decide), h.1.1.trans (by decide)⟩

/-- C6 at `N = 2^63 - 1`. -/
theorem readNumber_roundtrip_witness :
    readNumber maxWorld "/sys/class/net/wlan0/statistics/rx_bytes".toList
      = 9223372036854775807 :=
  (readNumber_roundtrip maxWorld "/sys/class/net/wlan0/statistics/rx_bytes".toList
    9223372036854775807 (by decide) (by decide)).1

/-- C10 at `INT_MIN`, the longest file name. -/
theorem uid_path_fits_witness :
    (uidRcvFile (-2147483648)).length ≤ 34 ∧ (uidSndFile (-2147483648)).length ≤ 34 ∧
    (uidRcvFile (-2147483648)).length + 1 ≤ 80 ∧ (uidSndFile (-2147483648)).length + 1 ≤ 80 :=
  uid_path_fits (-2147483648) (by decide) (by decide)

/-! ## Loopback interfaces -/

theorem take_head_slash (k : Nat) (sfx : List Char) (hs : sfx.head? = some '/') :
    sfx.take k = [] ∨ ∃ tl, sfx.take k = '/' :: tl := by
  cases hk : sfx.take k with
  | nil => exact Or.inl rfl
  | cons c cs =>
    have h := head?_take_imp k sfx c (by rw [hk]; rfl)
    rw [hs] at h
    obtain rfl := Option.some.inj h
    exact Or.inr ⟨cs, rfl⟩

theorem lo_not_leading (name sfx : List Char) (n k : Nat) (hn : 2 ≤ n)
    (hlo : isLoopback name = false) (hs : sfx.head? = some '/') :
    ['l', 'o'].isPrefixOf (name.take n ++ sfx.take k) = false := by
  have e2 : isLoopback name = ['l', 'o'].isPrefixOf name := rfl
  rw [e2] at hlo
  obtain ⟨m, rfl⟩ : ∃ m, n = m + 2 := ⟨n - 2, by omega⟩
  have hsl : ('l' == '/') = false := by decide
  have hso : ('o' == '/') = false := by decide
  rcases name with _ | ⟨a, _ | ⟨b, t⟩⟩
  · rcases take_head_slash k sfx hs with h | ⟨tl, h⟩
    · simp [h, List.isPrefixOf]
    · simp [h, List.isPrefixOf]
  · rcases take_head_slash k sfx hs with h | ⟨tl, h⟩
    · simp [h, List.isPrefixOf]
    · simp [h, List.isPrefixOf]
  · simp only [List.isPrefixOf, Bool.and_true] at hlo
    simp only [List.take_succ_cons, List.cons_append, List.isPrefixOf, Bool.and_true]
    exact hlo

theorem isPrefixOf_append_left (a b c : List Char) :
    (a ++ b).isPrefixOf (a ++ c) = b.isPrefixOf c := by
  induction a with
  | nil => rfl
  | cons x xs ih => simp [List.isPrefixOf, ih]

/-- The counter file of an interface that is not a loopback interface does not lie
below a `lo*` interface. -/
theorem counterFile_not_lo (name suffix : List Char) (hlo : isLoopback name = false)
    (hs : suffix.head? = some '/') :
    "/sys/class/net/lo".toList.isPrefixOf (counterFile name suffix) = false := by
  have e1 : "/sys/class/net/lo".toList = netBase ++ ['l', 'o'] := rfl
  rw [e1]
  simp only [counterFile, strlcat, strlcpy, List.append_assoc, isPrefixOf_append_left]
  exact lo_not_leading name suffix _ _ (by simp only [PATH_MAX, netBase_length]; omega) hlo hs

theorem readNumber_congr (w w2 : World) (p : List Char) (h : w.files p = w2.files p) :
    readNumber w p = readNumber w2 p := by
  simp only [readNumber, h]

theorem totalFilter_not_lo (name : List Char) (h : totalFilter name = true) :
    isLoopback name = false := by
  rw [totalFilter_eq] at h
  simp only [qualifying, Bool.and_eq_true, Bool.not_eq_true'] at h
  exact h.2

theorem rmnetFilter_not_lo (name : List Char) (h : rmnetFilter name = true) :
    isLoopback name = false := by
  apply totalFilter_not_lo
  simp only [rmnetFilter, Bool.and_eq_true] at h
  simp only [totalFilter, Bool.and_eq_true]
  exact h.1

theorem reads_congr_lo (w w2 : World) (flt : List Char → Bool) (suffix : List Char)
    (es es2 : List (List Char))
    (hflt : ∀ e, flt e = true → isLoopback e = false)
    (hs : suffix.head? = some '/')
    (hlist : es.filter (fun e => !isLoopback e) = es2.filter (fun e => !isLoopback e))
    (hfiles : ∀ p, "/sys/class/net/lo".toList.isPrefixOf p = false → w.files p = w2.files p) :
    reads w flt suffix es = reads w2 flt suffix es2 := by
  have hff : ∀ l : List (List Char),
      l.filter flt = (l.filter (fun e => !isLoopback e)).filter flt := by
    intro l
    rw [List.filter_filter]
    apply List.filter_congr
    intro e _
    cases hfe : flt e with
    | false => rfl
    | true => simp [hflt e hfe]
  have hmap : (es2.filter flt).map (fun e => readNumber w (counterFile e suffix))
      = (es2.filter flt).map (fun e => readNumber w2 (counterFile e suffix)) := by
    apply List.map_congr_left
    intro e he
    have hfe := (List.mem_filter.mp he).2
    exact readNumber_congr w w2 _ (hfiles _ (counterFile_not_lo e suffix (hflt e hfe) hs))
  have h1 : es.filter flt = es2.filter flt := by rw [hff es, hff es2, hlist]
  simp only [reads, h1, hmap]

theorem aggregates_congr_lo (w w2 : World) (suffix : List Char)
    (hs : suffix.head? = some '/')
    (hlist : w.netDir.map (List.filter (fun e => !isLoopback e))
      = w2.netDir.map (List.filter (fun e => !isLoopback e)))
    (hfiles : ∀ p, "/sys/class/net/lo".toList.isPrefixOf p = false → w.files p = w2.files p) :
    readTotal w suffix = readTotal w2 suffix ∧
    readRmNetStats w suffix = readRmNetStats w2 suffix := by
  cases h1 : w.netDir with
  | none =>
    cases h2 : w2.netDir with
    | none => simp [readTotal, readRmNetStats, h1, h2]
    | some es2 => simp [h1, h2] at hlist
  | some es =>
    cases h2 : w2.netDir with
    | none => simp [h1, h2] at hlist
    | some es2 =>
      have hl : es.filter (fun e => !isLoopback e) = es2.filter (fun e => !isLoopback e) := by
        simpa [h1, h2] using hlist
      rw [readTotal_eq w suffix es h1, readTotal_eq w2 suffix es2 h2,
        readRmNetStats_eq w suffix es h1, readRmNetStats_eq w2 suffix es2 h2,
        reads_congr_lo w w2 totalFilter suffix es es2 totalFilter_not_lo hs hl hfiles,
        reads_congr_lo w w2 rmnetFilter suffix es es2 rmnetFilter_not_lo hs hl hfiles]
      exact ⟨rfl, rfl⟩

/-- C3: loopback exclusion.  Two worlds that differ only in interfaces whose name starts
with `lo` (such entries added to or removed from the listing, files below
`/sys/class/net/lo*` created, removed or changed) give the same `readTotal` and
`readRmNetStats` for every counter suffix, and the same eight `getTotal*` / `getMobile*`
results. -/
theorem loopback_excluded (w w2 : World)
    (hlist : w.netDir.map (List.filter (fun e => !isLoopback e))
      = w2.netDir.map (List.filter (fun e => !isLoopback e)))
    (hfiles : ∀ p, "/sys/class/net/lo".toList.isPrefixOf p = false → w.files p = w2.files p) :
    (∀ suffix, suffix.head? = some '/' →
      readTotal w suffix = readTotal w2 suffix ∧
      readRmNetStats w suffix = readRmNetStats w2 suffix) ∧
    getTotalTxPackets w = getTotalTxPackets w2 ∧ getTotalRxPackets w = getTotalRxPackets w2 ∧
    getTotalTxBytes w = getTotalTxBytes w2 ∧ getTotalRxBytes w = getTotalRxBytes w2 ∧
    getMobileTxPackets w = getMobileTxPackets w2 ∧
    getMobileRxPackets w = getMobileRxPackets w2 ∧
    getMobileTxBytes w = getMobileTxBytes w2 ∧ getMobileRxBytes w = getMobileRxBytes w2 := by
  have hall := fun suffix hs => aggregates_congr_lo w w2 suffix hs hlist hfiles
  have hp : readNumber w pppFallback = readNumber w2 pppFallback :=
    readNumber_congr w w2 _ (hfiles _ (by decide))
  have h1 := hall "/statistics/tx_packets".toList rfl
  have h2 := hall "/statistics/rx_packets".toList rfl
  have h3 := hall "/statistics/tx_bytes".toList rfl
  have h4 := hall "/statistics/rx_bytes".toList rfl
  refine ⟨hall, h1.1, h2.1, h3.1, h4.1, ?_, ?_, ?_, ?_⟩
  · simp only [getMobileTxPackets, h1.2, hp]
  · simp only [getMobileRxPackets, h2.2, hp]
  · simp only [getMobileTxBytes, h3.2, hp]
  · simp only [getMobileRxBytes, h4.2, hp]

/-- C3 at the scenario: with `lo0` added and the loopback counters rewritten the totals
stay `160` and `150`. -/
theorem loopback_excluded_witness :
    getTotalTxBytes scenarioLo = 160 ∧ getMobileTxBytes scenarioLo = 150 :=
  have h := loopback_excluded scenario scenarioLo (by decide) (by
    intro p hp
    simp only [scenarioLo, hp, Bool.false_eq_true, if_false])
  ⟨h.2.2.2.1.symm.trans (by decide), h.2.2.2.2.2.2.2.1.symm.trans (by decide)⟩

/-! ## Arbitrary digit strings -/

theorem parseDigits_digits : ∀ (ds : List Char) (acc : Nat) (rest : List Char),
    (∀ c ∈ ds, isdigit c = true) →
    parseDigits acc (ds ++ rest)
      = parseDigits (acc * 10 ^ ds.length + decimalValue ds) rest := by
  intro ds
  induction ds with
  | nil => intro acc rest _; simp [decimalValue]
  | cons c cs ih =>
    intro acc rest h
    have hc := h c (List.mem_cons_self _ _)
    have hcs : ∀ x ∈ cs, isdigit x = true := fun x hx => h x (List.mem_cons_of_mem _ hx)
    simp only [List.cons_append, parseDigits, hc, if_true, List.append_eq]
    rw [ih _ rest hcs]
    congr 1
    simp only [decimalValue, List.map_cons, List.reverse_cons, Nat.ofDigits_append,
      Nat.ofDigits_singleton, List.length_reverse, List.length_map, List.length_cons]
    ring

theorem atoll_digits (ds rest : List Char) (hne : ds ≠ [])
    (hds : ∀ c ∈ ds, isdigit c = true)
    (hrest : ∀ c, rest.head? = some c → isdigit c = false)
    (hval : decimalValue ds ≤ 2 ^ 63 - 1) :
    atoll (ds ++ rest) = decimalValue ds := by
  have hp := parseDigits_digits ds 0 rest hds
  rw [parseDigits_stop _ _ hrest] at hp
  cases ds with
  | nil => exact absurd rfl hne
  | cons c tl =>
    obtain ⟨hs, hm, hpl⟩ := isdigit_not_space c (hds c (List.mem_cons_self _ _))
    simp only [atoll, List.cons_append, List.dropWhile_cons, hs, Bool.false_eq_true,
      if_false, List.head?_cons, Option.some.injEq, hm, hpl]
    rw [← List.cons_append, hp]
    simp only [zero_mul, zero_add]
    omega

theorem readNumber_digits (w : World) (p ds rest : List Char) (hne : ds ≠ [])
    (hds : ∀ c ∈ ds, isdigit c = true) (hlen : ds.length ≤ 79)
    (hrest : ∀ c, rest.head? = some c → isdigit c = false)
    (hval : decimalValue ds ≤ 2 ^ 63 - 1)
    (hfile : w.files p = FileState.data (ds ++ rest)) :
    readNumber w p = decimalValue ds := by
  rw [readNumber_data w p _ hfile, List.take_append_eq_append_take,
    List.take_of_length_le hlen]
  exact atoll_digits ds _ hne hds (fun c hc => hrest c (head?_take_imp _ _ _ hc)) hval

/-- C7 as stated fails: when the file of uid 10007 holds the digits of `10^20 - 1`
followed by a newline the result is the largest `jlong`, not that number; and when it
holds eighty digits writing the number `7` followed by a newline, only 79 bytes are read
and the result is `0`. -/
theorem uid_counter_too_large :
    bigUidWorld.files "/proc/uid_stat/10007/tcp_rcv".toList
      = FileState.data "99999999999999999999\n".toList ∧
    getUidRxBytes bigUidWorld 10007 = 9223372036854775807 ∧
    getUidRxBytes bigUidWorld 10007 ≠ 99999999999999999999 ∧
    paddedUidWorld.files "/proc/uid_stat/10007/tcp_snd".toList
      = FileState.data (List.replicate 79 '0' ++ "7\n".toList) ∧
    getUidTxBytes paddedUidWorld 10007 = 0 ∧
    getUidTxBytes paddedUidWorld 10007 ≠ 7 := by
  decide

/-- C7, amended: for every 32-bit uid, `getUidRxBytes` and `getUidTxBytes` are
`readNumber` on `/proc/uid_stat/<decimal uid>/tcp_rcv` and `.../tcp_snd`; the result is
`-1` when the file does not exist, and when the file holds at most 79 decimal digits
whose number is at most `2^63 - 1`, followed by a newline, the result is that number. -/
theorem uid_queries (w : World) (uid : Int) (_hlo : -(2 ^ 31) ≤ uid) (_hhi : uid < 2 ^ 31) :
    getUidRxBytes w uid
      = readNumber w ("/proc/uid_stat/".toList ++ formatD uid ++ "/tcp_rcv".toList) ∧
    getUidTxBytes w uid
      = readNumber w ("/proc/uid_stat/".toList ++ formatD uid ++ "/tcp_snd".toList) ∧
    (w.files ("/proc/uid_stat/".toList ++ formatD uid ++ "/tcp_rcv".toList)
        = FileState.noEntry → getUidRxBytes w uid = -1) ∧
    (w.files ("/proc/uid_stat/".toList ++ formatD uid ++ "/tcp_snd".toList)
        = FileState.noEntry → getUidTxBytes w uid = -1) ∧
    (∀ ds : List Char, ds ≠ [] → (∀ c ∈ ds, isdigit c = true) → ds.length ≤ 79 →
      decimalValue ds ≤ 2 ^ 63 - 1 →
      w.files ("/proc/uid_stat/".toList ++ formatD uid ++ "/tcp_rcv".toList)
        = FileState.data (ds ++ "\n".toList) →
      getUidRxBytes w uid = decimalValue ds) ∧
    (∀ ds : List Char, ds ≠ [] → (∀ c ∈ ds, isdigit c = true) → ds.length ≤ 79 →
      decimalValue ds ≤ 2 ^ 63 - 1 →
      w.files ("/proc/uid_stat/".toList ++ formatD uid ++ "/tcp_snd".toList)
        = FileState.data (ds ++ "\n".toList) →
      getUidTxBytes w uid = decimalValue ds) := by
  refine ⟨rfl, rfl, ?_, ?_, ?_, ?_⟩
  · exact fun h => readNumber_noEntry w _ h
  · exact fun h => readNumber_noEntry w _ h
  · intro ds hne hds hlen hval hfile
    exact readNumber_digits w _ ds _ hne hds hlen newline_not_digit hval hfile
  · intro ds hne hds hlen hval hfile
    exact readNumber_digits w _ ds _ hne hds hlen newline_not_digit hval hfile

/-- C7 at `uidWorld`: uid 10007 has `12345` received and `678` sent; uid 10008 has no
files. -/
theorem uid_queries_witness :
    getUidRxBytes uidWorld 10007 = 12345 ∧ getUidTxBytes uidWorld 10007 = 678 ∧
    getUidRxBytes uidWorld 10008 = -1 ∧ getUidTxBytes uidWorld 10008 = -1 := by
  have h7 := uid_queries uidWorld 10007 (by decide) (by decide)
  have h8 := uid_queries uidWorld 10008 (by decide) (by decide)
  refine ⟨?_, ?_, h8.2.2.1 (by decide), h8.2.2.2.1 (by decide)⟩
  · exact (h7.2.2.2.2.1 "12345".toList (by decide) (by decide) (by decide) (by decide)
      (by decide)).trans (by decide)
  · exact (h7.2.2.2.2.2 "678".toList (by decide) (by decide) (by decide) (by decide)
      (by decide)).trans (by decide)

/-! ## Overflow and the empty accumulator -/

/-- C8 as stated fails: before `wlan0` (counter `10`) is listed `readTotal` is `-1`,
afterwards it is `10`; the result changes by `11`, not by `10`. -/
theorem first_interface_changes_by_more :
    readTotal beforeWorld "/statistics/tx_bytes".toList = -1 ∧
    readTotal afterWorld "/statistics/tx_bytes".toList = 10 ∧
    readTotal afterWorld "/statistics/tx_bytes".toList
      - readTotal beforeWorld "/statistics/tx_bytes".toList ≠ 10 := by
  decide

/-- C5 as stated fails: both rmnet interfaces have a readable counter file for
`tx_bytes`, yet their sum wraps to a negative total and the fall-back is consulted: the
result is `-1` without the `ppp0` file and `7` once that file exists. -/
theorem mobile_depends_on_fallback :
    ((overflowWorld.files "/sys/class/net/rmnet0/statistics/tx_bytes".toList).readable = true ∧
      (overflowWorld.files "/sys/class/net/rmnet1/statistics/tx_bytes".toList).readable
        = true) ∧
    readRmNetStats overflowWorld "/statistics/tx_bytes".toList = -9223372036854775808 ∧
    getMobileTxBytes overflowWorldNoPpp = -1 ∧
    getMobileTxBytes overflowWorld = 7 := by
  decide

/-- C8, amended: when the directory already has an interface whose counter is read, and
the counters read together with `v` add up to at most `2^63 - 1`, listing one more
qualifying interface with counter `v` raises the result of `readTotal` by exactly `v`,
and removing it again lowers the result by exactly `v`. -/
theorem listed_interface_adds (files : List Char → FileState) (suffix : List Char)
    (before after : List (List Char)) (name : List Char) (v : Nat)
    (hsfx : suffix.length ≤ 3825) (hname : name.length ≤ 255)
    (hq : qualifying name = true)
    (hfile : HoldsNumber (files (netBase ++ name ++ suffix)) v)
    (hother : reads ⟨files, some (before ++ after)⟩ qualifying suffix (before ++ after) ≠ [])
    (hsum : (reads ⟨files, some (before ++ after)⟩ qualifying suffix (before ++ after)).sum
      + v ≤ 2 ^ 63 - 1) :
    readTotal ⟨files, some (before ++ name :: after)⟩ suffix
      = readTotal ⟨files, some (before ++ after)⟩ suffix + v ∧
    readTotal ⟨files, some (before ++ after)⟩ suffix
      = readTotal ⟨files, some (before ++ name :: after)⟩ suffix - v := by
  have hflt : totalFilter = qualifying := funext totalFilter_eq
  have hw : ∀ (d d2 : Option (List (List Char))) (es : List (List Char)),
      reads ⟨files, d⟩ qualifying suffix es = reads ⟨files, d2⟩ qualifying suffix es :=
    fun _ _ _ => rfl
  have hs0 := sum_nonneg_of _
    (reads_nonneg ⟨files, some (before ++ after)⟩ qualifying suffix (before ++ after))
  have hv : (v : Int) ≤ 2 ^ 63 - 1 := by omega
  have hone : reads ⟨files, some (before ++ after)⟩ qualifying suffix [name] = [(v : Int)] := by
    have := reads_of_holds ⟨files, some (before ++ after)⟩ qualifying suffix [name]
      (fun _ => v) hsfx
      (by
        intro x hx _
        rw [List.mem_singleton.mp hx]
        exact ⟨hname, hv, hfile⟩)
    simpa [hq] using this
  have hsplit : before ++ name :: after = before ++ ([name] ++ after) := by simp
  have hnew : reads ⟨files, some (before ++ name :: after)⟩ qualifying suffix
      (before ++ name :: after)
      = reads ⟨files, some (before ++ after)⟩ qualifying suffix before ++ ((v : Int) ::
        reads ⟨files, some (before ++ after)⟩ qualifying suffix after) := by
    rw [hw _ (some (before ++ after)), hsplit, reads_append, reads_append, hone]
    rfl
  have hold := reads_append ⟨files, some (before ++ after)⟩ qualifying suffix before after
  have hnn := reads_nonneg ⟨files, some (before ++ after)⟩ qualifying suffix
  have e1 : readTotal ⟨files, some (before ++ after)⟩ suffix
      = (reads ⟨files, some (before ++ after)⟩ qualifying suffix (before ++ after)).sum := by
    rw [readTotal_eq _ suffix (before ++ after) rfl, hflt]
    exact foldl_accumulate_start _ _ (by decide) (hnn _) hother (by omega)
  have e2 : readTotal ⟨files, some (before ++ name :: after)⟩ suffix
      = (reads ⟨files, some (before ++ after)⟩ qualifying suffix (before ++ after)).sum
        + v := by
    rw [readTotal_eq _ suffix (before ++ name :: after) rfl, hflt, hnew]
    rw [foldl_accumulate_start _ _ (by decide) ?_ (by simp) ?_]
    · rw [hold]
      simp only [List.sum_append, List.sum_cons]
      omega
    · intro x hx
      rcases List.mem_append.mp hx with hx | hx
      · exact hnn _ x hx
      · rcases List.mem_cons.mp hx with rfl | hx
        · omega
        · exact hnn _ x hx
    · rw [hold] at hsum
      simp only [List.sum_append, List.sum_cons] at hsum ⊢
      omega
  rw [e1, e2]
  constructor <;> omega

/-- C8, amended, at the scenario: listing `wlan0` (counter `10`) next to `rmnet0` and
`rmnet1` raises `readTotal` from `150` to `160`. -/
theorem listed_interface_adds_witness :
    readTotal ⟨scenario.files,
        some ([".", "..", "lo", "rmnet0", "wlan0", "rmnet1"].map String.toList)⟩
        "/statistics/tx_bytes".toList = 160 ∧
    readTotal ⟨scenario.files, some ([".", "..", "lo", "rmnet0", "rmnet1"].map String.toList)⟩
        "/statistics/tx_bytes".toList = 150 :=
  have h := listed_interface_adds scenario.files "/statistics/tx_bytes".toList
    ([".", "..", "lo", "rmnet0"].map String.toList) (["rmnet1"].map String.toList)
    "wlan0".toList 10 (by decide) (by decide) (by decide)
    ⟨"\n".toList, by decide, newline_not_digit⟩ (by decide) (by decide)
  ⟨h.1.trans (by decide), h.2.trans (by decide)⟩

/-! ## The mobile queries -/

theorem reads_of_readable (w : World) (flt : List Char → Bool) (suffix : List Char)
    (v : List Char → Nat) (hsfx : suffix.length ≤ 3825) :
    ∀ entries : List (List Char), (∀ e ∈ entries, e.length ≤ 255) →
    (∀ e ∈ entries, flt e = true → (w.files (netBase ++ e ++ suffix)).readable = true →
      (v e : Int) ≤ 2 ^ 63 - 1 ∧ HoldsNumber (w.files (netBase ++ e ++ suffix)) (v e)) →
    reads w flt suffix entries
      = (entries.filter
          (fun e => flt e && (w.files (netBase ++ e ++ suffix)).readable)).map
          (fun e => (v e : Int)) := by
  intro entries
  induction entries with
  | nil => intro _ _; rfl
  | cons e es ih =>
    intro hname h
    have hrest := ih (fun x hx => hname x (List.mem_cons_of_mem _ hx))
      (fun x hx => h x (List.mem_cons_of_mem _ hx))
    have hsplit : e :: es = [e] ++ es := rfl
    have hlen := hname e (List.mem_cons_self _ _)
    rw [hsplit, reads_append, hrest, List.filter_append, List.map_append]
    congr 1
    by_cases hf : flt e = true
    · by_cases hr : (w.files (netBase ++ e ++ suffix)).readable = true
      · obtain ⟨hv, hh⟩ := h e (List.mem_cons_self _ _) hf hr
        have hnum : readNumber w (counterFile e suffix) = v e := by
          rw [counterFile_eq e suffix (by omega)]
          exact readNumber_holds w _ (v e) (by omega) hh
        simp [reads, hf, hr, hnum, -List.append_assoc]
      · have hnum : readNumber w (counterFile e suffix) = -1 := by
          rw [counterFile_eq e suffix (by omega)]
          exact readNumber_not_readable w _ (by simpa using hr)
        simp [reads, hf, hr, hnum, -List.append_assoc]
    · simp [reads, hf]

theorem rmnet_path_ne_ppp (name suffix : List Char) (h : isRmnet name = true) :
    netBase ++ name ++ suffix ≠ pppFallback := by
  have e1 : pppFallback = netBase ++ "ppp0/statistics/tx_packets".toList := rfl
  have e3 : ("rmnet" : String).toList = ['r', 'm', 'n', 'e', 't'] := rfl
  rw [e1, List.append_assoc]
  intro heq
  have h2 := List.append_cancel_left heq
  simp only [isRmnet, e3] at h
  cases name with
  | nil => simp [List.isPrefixOf] at h
  | cons a t =>
    simp only [List.isPrefixOf, Bool.and_eq_true, beq_iff_eq] at h
    have ha : a = 'r' := h.1.symm
    subst ha
    have e4 : ("ppp0/statistics/tx_packets" : String).toList
        = 'p' :: "pp0/statistics/tx_packets".toList := rfl
    rw [e4, List.cons_append] at h2
    exact absurd (List.cons.inj h2).1 (by decide)

/-- What the loop of `readRmNetStats` returns when every readable rmnet counter file
holds a number and nothing overflows. -/
theorem readRmNetStats_sum (w : World) (suffix : List Char) (listing : List (List Char))
    (v : List Char → Nat) (hdir : w.netDir = some listing) (hsfx : suffix.length ≤ 3825)
    (hname : ∀ e ∈ listing, e.length ≤ 255)
    (hsome : ∃ e ∈ listing, isRmnet e = true ∧
      (w.files (netBase ++ e ++ suffix)).readable = true)
    (hfile : ∀ e ∈ listing, isRmnet e = true →
      (w.files (netBase ++ e ++ suffix)).readable = true →
      HoldsNumber (w.files (netBase ++ e ++ suffix)) (v e))
    (hsum : ((listing.filter
        (fun e => isRmnet e && (w.files (netBase ++ e ++ suffix)).readable)).map
        (fun e => (v e : Int))).sum ≤ 2 ^ 63 - 1) :
    readRmNetStats w suffix
      = ((listing.filter
          (fun e => isRmnet e && (w.files (netBase ++ e ++ suffix)).readable)).map
          (fun e => (v e : Int))).sum ∧
    0 ≤ readRmNetStats w suffix := by
  have hrm : rmnetFilter = isRmnet := funext rmnetFilter_eq
  have hnn : ∀ x ∈ (listing.filter
      (fun e => isRmnet e && (w.files (netBase ++ e ++ suffix)).readable)).map
      (fun e => (v e : Int)), 0 ≤ x := by
    intro x hx
    obtain ⟨e, -, rfl⟩ := List.mem_map.mp hx
    simp
  have hr := reads_of_readable w isRmnet suffix v hsfx listing hname (by
    intro e he hq hread
    refine ⟨?_, hfile e he hq hread⟩
    have : (v e : Int) ∈ (listing.filter
        (fun e => isRmnet e && (w.files (netBase ++ e ++ suffix)).readable)).map
        (fun e => (v e : Int)) :=
      List.mem_map.mpr ⟨e, List.mem_filter.mpr ⟨he, by simp only [hq, hread, Bool.and_self]⟩, rfl⟩
    exact le_trans (mem_le_sum _ hnn _ this) hsum)
  have hval : readRmNetStats w suffix
      = ((listing.filter
          (fun e => isRmnet e && (w.files (netBase ++ e ++ suffix)).readable)).map
          (fun e => (v e : Int))).sum := by
    rw [readRmNetStats_eq w suffix listing hdir, hrm, hr]
    apply foldl_accumulate_start _ _ (by decide) hnn _ hsum
    obtain ⟨e, he, hq, hread⟩ := hsome
    intro hnil
    have : (v e : Int) ∈ (listing.filter
        (fun e => isRmnet e && (w.files (netBase ++ e ++ suffix)).readable)).map
        (fun e => (v e : Int)) :=
      List.mem_map.mpr ⟨e, List.mem_filter.mpr ⟨he, by simp only [hq, hread, Bool.and_self]⟩, rfl⟩
    rw [hnil] at this
    simp at this
  exact ⟨hval, by rw [hval]; exact sum_nonneg_of _ hnn⟩

theorem stats_of_nonneg (stats fallback total : Int) (h : stats = total ∧ 0 ≤ stats) :
    (if stats ≥ 0 then stats else fallback) = total := by
  rw [if_pos h.2, h.1]

/-- C5, amended: for each of the four mobile queries, if at least one rmnet interface
has a readable counter file for the suffix, every readable rmnet counter file holds a
valid non-negative decimal integer and these values add up to at most `2^63 - 1`, then
the query returns their sum, whatever the `ppp0` fall-back file is. -/
theorem mobile_radio_aggregate (w : World) (query : World → Int) (suffix : List Char)
    (listing : List (List Char)) (v : List Char → Nat)
    (hquery : (query, suffix) ∈
      [(getMobileTxPackets, "/statistics/tx_packets".toList),
       (getMobileRxPackets, "/statistics/rx_packets".toList),
       (getMobileTxBytes, "/statistics/tx_bytes".toList),
       (getMobileRxBytes, "/statistics/rx_bytes".toList)])
    (hdir : w.netDir = some listing)
    (hname : ∀ e ∈ listing, e.length ≤ 255)
    (hsome : ∃ e ∈ listing, isRmnet e = true ∧
      (w.files (netBase ++ e ++ suffix)).readable = true)
    (hfile : ∀ e ∈ listing, isRmnet e = true →
      (w.files (netBase ++ e ++ suffix)).readable = true →
      HoldsNumber (w.files (netBase ++ e ++ suffix)) (v e))
    (hsum : ((listing.filter
        (fun e => isRmnet e && (w.files (netBase ++ e ++ suffix)).readable)).map
        (fun e => (v e : Int))).sum ≤ 2 ^ 63 - 1) :
    query w = ((listing.filter
        (fun e => isRmnet e && (w.files (netBase ++ e ++ suffix)).readable)).map
        (fun e => (v e : Int))).sum ∧
    ∀ st : FileState,
      query ⟨Function.update w.files pppFallback st, w.netDir⟩
        = ((listing.filter
            (fun e => isRmnet e && (w.files (netBase ++ e ++ suffix)).readable)).map
            (fun e => (v e : Int))).sum := by
  have hsfx : suffix.length ≤ 3825 := by
    simp only [List.mem_cons, Prod.mk.injEq, List.mem_nil_iff, or_false] at hquery
    rcases hquery with ⟨-, rfl⟩ | ⟨-, rfl⟩ | ⟨-, rfl⟩ | ⟨-, rfl⟩ <;> decide
  have hw := readRmNetStats_sum w suffix listing v hdir hsfx hname hsome hfile hsum
  have hupd : ∀ st : FileState, ∀ e, isRmnet e = true →
      Function.update w.files pppFallback st (netBase ++ e ++ suffix)
        = w.files (netBase ++ e ++ suffix) :=
    fun st e he => Function.update_noteq (rmnet_path_ne_ppp e suffix he) _ _
  have hfl : ∀ st : FileState,
      listing.filter (fun e => isRmnet e &&
          (Function.update w.files pppFallback st (netBase ++ e ++ suffix)).readable)
        = listing.filter
          (fun e => isRmnet e && (w.files (netBase ++ e ++ suffix)).readable) := by
    intro st
    apply List.filter_congr
    intro e _
    cases he : isRmnet e with
    | false => rfl
    | true => simp only [hupd st e he]
  have hw2 : ∀ st : FileState,
      readRmNetStats ⟨Function.update w.files pppFallback st, w.netDir⟩ suffix
        = ((listing.filter
            (fun e => isRmnet e && (w.files (netBase ++ e ++ suffix)).readable)).map
            (fun e => (v e : Int))).sum ∧
      0 ≤ readRmNetStats ⟨Function.update w.files pppFallback st, w.netDir⟩ suffix := by
    intro st
    have := readRmNetStats_sum ⟨Function.update w.files pppFallback st, w.netDir⟩ suffix
      listing v hdir hsfx hname
      (by
        obtain ⟨e, he, hq, hread⟩ := hsome
        exact ⟨e, he, hq, by simp only [hupd st e hq]; exact hread⟩)
      (by
        intro e he hq hread
        simp only [hupd st e hq] at hread ⊢
        exact hfile e he hq hread)
      (by simp only [hfl st]; exact hsum)
    simpa only [hfl st] using this
  simp only [List.mem_cons, Prod.mk.injEq, List.mem_nil_iff, or_false] at hquery
  rcases hquery with ⟨rfl, rfl⟩ | ⟨rfl, rfl⟩ | ⟨rfl, rfl⟩ | ⟨rfl, rfl⟩
  · exact ⟨stats_of_nonneg _ _ _ hw, fun st => stats_of_nonneg _ _ _ (hw2 st)⟩
  · exact ⟨stats_of_nonneg _ _ _ hw, fun st => stats_of_nonneg _ _ _ (hw2 st)⟩
  · exact ⟨stats_of_nonneg _ _ _ hw, fun st => stats_of_nonneg _ _ _ (hw2 st)⟩
  · exact ⟨stats_of_nonneg _ _ _ hw, fun st => stats_of_nonneg _ _ _ (hw2 st)⟩

/-- C5, amended, at the scenario: `lo=999, rmnet0=100, rmnet1=50, wlan0=10` gives
`MobileTxBytes = 150`, also once a `ppp0` fall-back file reading `7` exists. -/
theorem mobile_radio_aggregate_witness :
    getMobileTxBytes scenario = 150 ∧
    getMobileTxBytes
      ⟨Function.update scenario.files pppFallback (FileState.data "7\n".toList),
        scenario.netDir⟩ = 150 :=
  have h := mobile_radio_aggregate scenario getMobileTxBytes "/statistics/tx_bytes".toList
    ([".", "..", "lo", "rmnet0", "rmnet1", "wlan0"].map String.toList) scenarioValue
    (List.mem_cons_of_mem _ (List.mem_cons_of_mem _ (List.mem_cons_self _ _)))
    rfl (by decide) ⟨"rmnet0".toList, by decide, by decide, by decide⟩
    (by
      intro e he hq _
      simp only [List.map_cons, List.map_nil, List.mem_cons, List.mem_nil_iff, or_false] at he
      rcases he with rfl | rfl | rfl | rfl | rfl | rfl
      · exact absurd hq (by decide)
      · exact absurd hq (by decide)
      · exact absurd hq (by decide)
      · exact ⟨"\n".toList, by decide, newline_not_digit⟩
      · exact ⟨"\n".toList, by decide, newline_not_digit⟩
      · exact absurd hq (by decide))
    (by decide)
  ⟨h.1.trans (by decide), (h.2 (FileState.data "7\n".toList)).trans (by decide)⟩

end TrafficStats
